import Mathlib

/-!
Verification development for the KS-RAG retrieval-and-grounding pipeline.

The repository ships the Next.js presentation layer (chat component, auth
context) in source form; the FastAPI backend (chunker, vector index,
retrieval pipeline, conversation store) is exercised through it and
documented in the specification.  Components whose backend source is not
available are modelled from the specification, as marked on each
definition; the frontend components are embedded directly from
`frontend/app/components/Chatbot.tsx` and the auth context.
-/

namespace KSRag

/-- Modelled from the spec: chunk window size, default 1000 characters. -/
def CHUNK_SIZE : Nat := 1000

/-- Modelled from the spec: overlap between consecutive windows, default 200. -/
def OVERLAP : Nat := 200

/-- Modelled from the spec: default number of retrieved entries for `search`. -/
def DEFAULT_K : Nat := 4

/-- Modelled from the spec: snippet preview length for source attributions. -/
def SNIPPET_LEN : Nat := 200

/-! ## Chunker (modelled from the spec, section 4.1) -/

/-- Modelled from the spec: a Chunk is a bounded, page-attributed span of
document text with owning document name, page number, sequence index and
character offset range. -/
structure ChunkRec where
  doc : String
  page : Nat
  seq : Nat
  text : List Char
  start : Nat
  stop : Nat

/-- Modelled from the spec: concatenation of the page texts of a document. -/
def pagesText (pages : List (Nat × String)) : List Char :=
  (pages.map (fun pg => pg.2.data)).flatten

/-- Modelled from the spec: the page containing a character offset of the
concatenated text (best effort, page 1 when past the end). -/
def pageOf : List (Nat × String) → Nat → Nat
  | [], _ => 1
  | (pn, t) :: rest, off =>
      if off < t.data.length then pn else pageOf rest (off - t.data.length)

/-- The substring of `text` at offsets `[p, e)`. -/
def sliceText (text : List Char) (p e : Nat) : List Char :=
  (text.drop p).take (e - p)

/-- A window is dropped when its text is empty or whitespace-only. -/
def wsOnly (t : List Char) : Bool :=
  t.all (fun c => c.isWhitespace)

/-- Modelled from the spec: snap the tentative window boundary `e` back to the
nearest preceding whitespace strictly after `p`, when possible. -/
def snapEnd (text : List Char) (p e : Nat) : Nat :=
  (((List.range' (p + 1) (e - p)).filter
      (fun j => (text.getD (j - 1) 'x').isWhitespace)).getLast?).getD e

/-- Modelled from the spec: slide a window of `CHUNK_SIZE` characters with
`OVERLAP` characters of overlap, snapping full windows to whitespace.
`fuel` bounds the recursion; `pagesText.length + 1` is always enough. -/
def chunkWindows (text : List Char) : Nat → Nat → List (Nat × Nat)
  | 0, _ => []
  | fuel + 1, p =>
    if text.length ≤ p then []
    else
      let e := min (p + CHUNK_SIZE) text.length
      let e' := if e < text.length then snapEnd text p e else e
      if text.length ≤ e' then [(p, e')]
      else (p, e') :: chunkWindows text fuel (max (e' - OVERLAP) (p + 1))

/-- Modelled from the spec: `chunk(document_id, pages)` concatenates page
texts, slides overlapping windows, drops empty or whitespace-only windows,
and attributes each window to the page containing its starting offset. -/
def chunkDoc (doc : String) (pages : List (Nat × String)) : List ChunkRec :=
  let text := pagesText pages
  let windows := chunkWindows text (text.length + 1) 0
  let kept := windows.filter (fun w => !(wsOnly (sliceText text w.1 w.2)))
  kept.enum.map (fun iw =>
    { doc := doc, page := pageOf pages iw.2.1, seq := iw.1,
      text := sliceText text iw.2.1 iw.2.2, start := iw.2.1, stop := iw.2.2 })

lemma snapEnd_le {text : List Char} {p e : Nat} (h : p < e) :
    snapEnd text p e ≤ e := by
  rcases hl : ((List.range' (p + 1) (e - p)).filter
      (fun j => (text.getD (j - 1) 'x').isWhitespace)).getLast? with _ | j
  · simp only [snapEnd, hl, Option.getD_none]; exact le_refl e
  · have hj := List.mem_of_getLast?_eq_some hl
    have hj' := (List.mem_filter.mp hj).1
    have := List.mem_range'_1.mp hj'
    simp only [snapEnd, hl, Option.getD_some]
    omega

lemma lt_snapEnd {text : List Char} {p e : Nat} (h : p < e) :
    p < snapEnd text p e := by
  rcases hl : ((List.range' (p + 1) (e - p)).filter
      (fun j => (text.getD (j - 1) 'x').isWhitespace)).getLast? with _ | j
  · simp only [snapEnd, hl, Option.getD_none]; exact h
  · have hj := List.mem_of_getLast?_eq_some hl
    have hj' := (List.mem_filter.mp hj).1
    have := List.mem_range'_1.mp hj'
    simp only [snapEnd, hl, Option.getD_some]
    omega

lemma chunkWindows_inv (text : List Char) :
    ∀ fuel p, ∀ w ∈ chunkWindows text fuel p,
      p ≤ w.1 ∧ w.1 < w.2 ∧ w.2 ≤ w.1 + CHUNK_SIZE ∧ w.2 ≤ text.length := by
  intro fuel
  induction fuel with
  | zero => intro p w hw; simp [chunkWindows] at hw
  | succ fuel ih =>
    intro p w hw
    by_cases hp : text.length ≤ p
    · simp [chunkWindows, hp] at hw
    · push_neg at hp
      set e := min (p + CHUNK_SIZE) text.length with he
      have hpe : p < e := by
        have h1 : 0 < CHUNK_SIZE := by norm_num [CHUNK_SIZE]
        omega
      set e' := if e < text.length then snapEnd text p e else e with he'
      have hpe' : p < e' := by
        rw [he']; split
        · exact lt_snapEnd hpe
        · exact hpe
      have he'e : e' ≤ e := by
        rw [he']; split
        · exact snapEnd_le hpe
        · exact le_refl e
      have he'L : e' ≤ text.length := by
        rw [he']; split
        · exact le_of_lt (lt_of_le_of_lt (snapEnd_le hpe) (by assumption))
        · omega
      simp only [chunkWindows, if_neg (by omega : ¬ text.length ≤ p)] at hw
      rw [← he, ← he'] at hw
      by_cases hstop : text.length ≤ e'
      · rw [if_pos hstop] at hw
        simp at hw
        subst hw
        refine ⟨le_refl p, hpe', ?_, he'L⟩
        omega
      · rw [if_neg hstop] at hw
        rcases List.mem_cons.mp hw with hhd | htl
        · subst hhd
          refine ⟨le_refl p, hpe', ?_, he'L⟩
          omega
        · have := ih (max (e' - OVERLAP) (p + 1)) w htl
          omega

lemma chunkWindows_pairwise (text : List Char) :
    ∀ fuel p, List.Pairwise
      (fun w1 w2 => w1.1 < w2.1 ∧ w1.2 ≤ w2.1 + OVERLAP)
      (chunkWindows text fuel p) := by
  intro fuel
  induction fuel with
  | zero => intro p; simp [chunkWindows]
  | succ fuel ih =>
    intro p
    by_cases hp : text.length ≤ p
    · simp [chunkWindows, hp]
    · push_neg at hp
      set e := min (p + CHUNK_SIZE) text.length with he
      have hpe : p < e := by
        have h1 : 0 < CHUNK_SIZE := by norm_num [CHUNK_SIZE]
        omega
      set e' := if e < text.length then snapEnd text p e else e with he'
      simp only [chunkWindows, if_neg (by omega : ¬ text.length ≤ p)]
      rw [← he, ← he']
      by_cases hstop : text.length ≤ e'
      · rw [if_pos hstop]; simp
      · rw [if_neg hstop]
        refine List.Pairwise.cons ?_ (ih (max (e' - OVERLAP) (p + 1)))
        intro w hw
        have hinv := chunkWindows_inv text fuel (max (e' - OVERLAP) (p + 1)) w hw
        constructor
        · omega
        · omega

lemma chunkWindows_short (text : List Char) (h0 : 0 < text.length)
    (hL : text.length ≤ CHUNK_SIZE) :
    ∀ fuel, chunkWindows text (fuel + 1) 0 = [(0, text.length)] := by
  intro fuel
  have hmin : min (0 + CHUNK_SIZE) text.length = text.length := by omega
  simp only [chunkWindows, if_neg (by omega : ¬ text.length ≤ 0), hmin]
  rw [if_neg (by omega : ¬ text.length < text.length)]
  rw [if_pos (le_refl text.length)]

lemma length_sliceText (text : List Char) (p e : Nat) :
    (sliceText text p e).length = min (e - p) (text.length - p) := by
  simp [sliceText]

lemma sliceText_zero_length (text : List Char) :
    sliceText text 0 text.length = text := by
  simp [sliceText]

lemma pairwise_enumFrom_snd {α : Type _} (R : α → α → Prop) :
    ∀ (l : List α) (n : Nat), List.Pairwise R l →
      List.Pairwise (fun a b => R a.2 b.2) (l.enumFrom n) := by
  intro l
  induction l with
  | nil => intro n _; simp
  | cons a l ih =>
    intro n h
    rw [List.pairwise_cons] at h
    rw [List.enumFrom_cons, List.pairwise_cons]
    refine ⟨?_, ih (n + 1) h.2⟩
    intro b hb
    obtain ⟨i, x⟩ := b
    have hm := List.mem_enumFrom hb
    exact h.1 x (hm.2.2 ▸ List.getElem_mem _)

/-- C3: every chunk produced by the Chunker has text equal to the slice of
the document text at its offsets, non-empty and of length at most
`CHUNK_SIZE`; consecutive chunks of one document overlap by at most
`OVERLAP` characters; and a document whose text is shorter than
`CHUNK_SIZE` and not whitespace-only yields exactly one chunk (a blank
document yields zero chunks, see the counterexample). -/
theorem chunker_chunk_invariants (doc : String) (pages : List (Nat × String)) :
    (∀ c ∈ chunkDoc doc pages,
        c.text = sliceText (pagesText pages) c.start c.stop ∧
        c.text ≠ [] ∧ c.text.length ≤ CHUNK_SIZE) ∧
    List.Pairwise (fun c1 c2 => c1.start < c2.start ∧ c1.stop ≤ c2.start + OVERLAP)
      (chunkDoc doc pages) ∧
    ((pagesText pages).length < CHUNK_SIZE → wsOnly (pagesText pages) = false →
        (chunkDoc doc pages).length = 1) := by
  refine ⟨?_, ?_, ?_⟩
  · intro c hc
    simp only [chunkDoc, List.mem_map] at hc
    obtain ⟨iw, hiw, hfc⟩ := hc
    have hmem : iw.2 ∈ (chunkWindows (pagesText pages) ((pagesText pages).length + 1) 0).filter
        (fun w => !(wsOnly (sliceText (pagesText pages) w.1 w.2))) := by
      exact List.getElem?_mem (List.mem_enum_iff_getElem?.mp hiw)
    have hfil := List.mem_filter.mp hmem
    have hwin := chunkWindows_inv (pagesText pages) ((pagesText pages).length + 1) 0 iw.2 hfil.1
    have hws : wsOnly (sliceText (pagesText pages) iw.2.1 iw.2.2) = false := by
      have := hfil.2
      simpa using this
    subst hfc
    refine ⟨rfl, ?_, ?_⟩
    · dsimp only
      intro hnil
      rw [hnil] at hws
      simp [wsOnly] at hws
    · dsimp only
      rw [length_sliceText]
      omega
  · have hw := chunkWindows_pairwise (pagesText pages) ((pagesText pages).length + 1) 0
    have hkept : List.Pairwise (fun w1 w2 => w1.1 < w2.1 ∧ w1.2 ≤ w2.1 + OVERLAP)
        ((chunkWindows (pagesText pages) ((pagesText pages).length + 1) 0).filter
          (fun w => !(wsOnly (sliceText (pagesText pages) w.1 w.2)))) :=
      List.Pairwise.sublist (List.filter_sublist _) hw
    have henum := pairwise_enumFrom_snd _ _ 0 hkept
    simp only [chunkDoc]
    rw [List.pairwise_map]
    exact henum.imp (fun h => h)
  · intro hL hws
    have h0 : 0 < (pagesText pages).length := by
      rcases Nat.eq_zero_or_pos (pagesText pages).length with h | h
      · exfalso
        have : pagesText pages = [] := List.length_eq_zero.mp h
        rw [this] at hws
        simp [wsOnly] at hws
      · exact h
    have hshort := chunkWindows_short (pagesText pages) h0 (le_of_lt hL)
        (pagesText pages).length
    simp only [chunkDoc, hshort, List.filter, sliceText_zero_length, hws,
      Bool.not_false, List.enum, List.enumFrom_cons, List.map_cons,
      List.length_cons]
    simp

/-- C3 counterexample: a whitespace-only one-character document is shorter
than `CHUNK_SIZE` yet yields zero chunks, not one, because whitespace-only
windows are dropped. -/
theorem chunker_short_blank_counterexample :
    (pagesText [(1, " ")]).length < CHUNK_SIZE ∧
    (chunkDoc "doc" [(1, " ")]).length ≠ 1 := by decide

/-- C3 witness: a two-page short document with real text yields one chunk. -/
theorem chunker_chunk_invariants_witness :
    (chunkDoc "doc" [(1, "hello")]).length = 1 :=
  (chunker_chunk_invariants "doc" [(1, "hello")]).2.2 (by decide) (by decide)

/-! ## VectorIndex (modelled from the spec, section 4.3) -/

/-- Modelled from the spec: an IndexEntry pairs a Chunk with its embedding
vector and document-level metadata (the original filename). -/
structure IndexEntry where
  chunk : ChunkRec
  vector : List ℝ
  filename : String

/-- Modelled from the spec: the vector index state, an insertion-ordered
sequence of entries. -/
structure IndexState where
  entries : List IndexEntry

/-- Dot product of two embedding vectors. -/
def dotProd (a b : List ℝ) : ℝ := (List.zipWith (fun x y => x * y) a b).sum

/-- Euclidean norm of an embedding vector. -/
noncomputable def vecNorm (a : List ℝ) : ℝ := Real.sqrt (dotProd a a)

/-- Modelled from the spec: cosine similarity, score = dot(a,b) divided by
the product of the norms. -/
noncomputable def cosineSim (a b : List ℝ) : ℝ :=
  dotProd a b / (vecNorm a * vecNorm b)

/-- Ranking relation on insertion-indexed entries: higher cosine similarity
to the query comes first, ties broken by earlier insertion index. -/
def rank (v : List ℝ) (p q : Nat × IndexEntry) : Prop :=
  cosineSim q.2.vector v < cosineSim p.2.vector v ∨
    (cosineSim p.2.vector v = cosineSim q.2.vector v ∧ p.1 ≤ q.1)

noncomputable instance rankDecidable (v : List ℝ) : DecidableRel (rank v) :=
  fun _ _ => Classical.propDecidable _

instance rankTotal (v : List ℝ) : IsTotal (Nat × IndexEntry) (rank v) := by
  constructor
  intro a b
  rcases lt_trichotomy (cosineSim a.2.vector v) (cosineSim b.2.vector v) with h | h | h
  · exact Or.inr (Or.inl h)
  · rcases Nat.le_total a.1 b.1 with hle | hle
    · exact Or.inl (Or.inr ⟨h, hle⟩)
    · exact Or.inr (Or.inr ⟨h.symm, hle⟩)
  · exact Or.inl (Or.inl h)

instance rankTrans (v : List ℝ) : IsTrans (Nat × IndexEntry) (rank v) := by
  constructor
  intro a b c hab hbc
  rcases hab with hab | ⟨hab, hab'⟩ <;> rcases hbc with hbc | ⟨hbc, hbc'⟩
  · exact Or.inl (lt_trans hbc hab)
  · exact Or.inl (hbc ▸ hab)
  · exact Or.inl (hab ▸ hbc)
  · exact Or.inr ⟨hab.trans hbc, le_trans hab' hbc'⟩

/-- Modelled from the spec: exact linear scan ranking all insertion-indexed
entries by descending cosine similarity (stable for ties via the index),
keeping the top `k`. -/
noncomputable def searchRanked (st : IndexState) (v : List ℝ) (k : Nat) :
    List (Nat × IndexEntry) :=
  (List.insertionSort (rank v) st.entries.enum).take k

/-- Modelled from the spec: `search(query_vector, k)` returns up to `k`
entries paired with their cosine similarity scores, best first. -/
noncomputable def search (st : IndexState) (v : List ℝ) (k : Nat) :
    List (IndexEntry × ℝ) :=
  (searchRanked st v k).map (fun p => (p.2, cosineSim p.2.vector v))

/-- Modelled from the spec: the default `k` for `search` is `DEFAULT_K`. -/
noncomputable def searchDefault (st : IndexState) (v : List ℝ) :
    List (IndexEntry × ℝ) :=
  search st v DEFAULT_K

/-- A search call as a state transition: it returns the (unchanged) index
state together with the results. -/
noncomputable def searchOp (st : IndexState) (v : List ℝ) (k : Nat) :
    IndexState × List (IndexEntry × ℝ) :=
  (st, search st v k)

lemma sorted_rank (st : IndexState) (v : List ℝ) (k : Nat) :
    List.Pairwise (rank v) (searchRanked st v k) :=
  List.Pairwise.sublist (List.take_sublist _ _)
    (List.sorted_insertionSort (rank v) st.entries.enum)

lemma searchRanked_fst_pairwise_ne (st : IndexState) (v : List ℝ) (k : Nat) :
    List.Pairwise (fun p q => p.1 ≠ q.1) (searchRanked st v k) := by
  have hperm : List.Perm
      ((List.insertionSort (rank v) st.entries.enum).map Prod.fst)
      (st.entries.enum.map Prod.fst) :=
    (List.perm_insertionSort (rank v) st.entries.enum).map Prod.fst
  have hnd : ((List.insertionSort (rank v) st.entries.enum).map Prod.fst).Nodup := by
    rw [hperm.nodup_iff, List.enum_map_fst]
    exact List.nodup_range _
  have hpw : List.Pairwise (fun p q : Nat × IndexEntry => p.1 ≠ q.1)
      (List.insertionSort (rank v) st.entries.enum) := List.pairwise_map.mp hnd
  exact List.Pairwise.sublist (List.take_sublist _ _) hpw

/-- C1: `search` returns exactly `min k n` results where `n` is the index
size (hence at most `k`, and fewer when the index holds fewer entries),
ranked by descending cosine similarity score with ties broken by earlier
insertion index, each result being an entry of the index at its insertion
position paired with its cosine score; the default `k` is 4. -/
theorem vectorIndex_search_spec (st : IndexState) (v : List ℝ) (k : Nat) :
    search st v k =
      (searchRanked st v k).map (fun p => (p.2, cosineSim p.2.vector v)) ∧
    (search st v k).length = min k st.entries.length ∧
    List.Pairwise (fun a b => b.2 ≤ a.2) (search st v k) ∧
    List.Pairwise
      (fun p q => cosineSim p.2.vector v = cosineSim q.2.vector v → p.1 < q.1)
      (searchRanked st v k) ∧
    (∀ r ∈ searchRanked st v k, st.entries[r.1]? = some r.2) ∧
    searchDefault st v = search st v 4 := by
  refine ⟨rfl, ?_, ?_, ?_, ?_, rfl⟩
  · simp [search, searchRanked, List.enum_length]
  · rw [search, List.pairwise_map]
    refine (sorted_rank st v k).imp ?_
    intro p q hpq
    rcases hpq with h | ⟨h, _⟩
    · exact le_of_lt h
    · exact le_of_eq h.symm
  · refine ((sorted_rank st v k).and (searchRanked_fst_pairwise_ne st v k)).imp ?_
    intro p q hpq heq
    rcases hpq.1 with h | ⟨_, hle⟩
    · exact absurd h (by rw [heq]; exact lt_irrefl _)
    · exact lt_of_le_of_ne hle hpq.2
  · intro r hr
    have hr' : r ∈ List.insertionSort (rank v) st.entries.enum :=
      (List.take_sublist _ _).mem hr
    rw [List.mem_insertionSort] at hr'
    exact List.mem_enum_iff_getElem?.mp hr'

/-- C1 witness: the search specification applied to a concrete empty index. -/
theorem vectorIndex_search_spec_witness :
    (search ⟨[]⟩ [] 0).length = min 0 (List.length ([] : List IndexEntry)) :=
  (vectorIndex_search_spec ⟨[]⟩ [] 0).2.1

/-- C6: `search` is a pure, deterministic function of the index state and
query vector: identical inputs yield identical outputs, it leaves the index
state unchanged, and a second call without an intervening insert returns
identical results. -/
theorem search_deterministic_idempotent (st : IndexState) (v : List ℝ) (k : Nat) :
    searchOp st v k = searchOp st v k ∧
    (searchOp st v k).1 = st ∧
    (searchOp (searchOp st v k).1 v k).2 = (searchOp st v k).2 :=
  ⟨rfl, rfl, rfl⟩

/-! ## RetrievalPipeline (modelled from the spec, section 4.4) -/

/-- Modelled from the spec: ingestion failure conditions. -/
inductive IngestError
  | validationError

/-- Modelled from the spec: the counts returned by a successful ingestion. -/
structure IngestStats where
  indexed_files : Nat
  indexed_chunks : Nat

/-- An uploaded file: its original name and its extracted pages. -/
structure FileMeta where
  name : String
  pages : List (Nat × String)

/-- PDF check used by the repository (frontend `handleFileSelect`): the
lower-cased filename must end in ".pdf". -/
def isPdfName (name : String) : Bool := name.toLower.endsWith ".pdf"

/-- Chunk one file and pair every chunk with its embedding and filename. -/
def chunkEntries (embed : List Char → List ℝ) (f : FileMeta) : List IndexEntry :=
  (chunkDoc f.name f.pages).map (fun c => ⟨c, embed c.text, f.name⟩)

/-- Modelled from the spec: `ingest(files)` rejects with a validation error
(leaving the index unchanged, zero chunks indexed) when more than 4 files
are given or any file is not a PDF; otherwise it chunks, embeds and appends
all new entries, returning the indexed file and chunk counts. -/
def ingest (embed : List Char → List ℝ) (files : List FileMeta)
    (st : IndexState) : IndexState × Except IngestError IngestStats :=
  if 4 < files.length then (st, .error .validationError)
  else if files.any (fun f => !(isPdfName f.name)) then
    (st, .error .validationError)
  else
    let newEntries := (files.map (chunkEntries embed)).flatten
    (⟨st.entries ++ newEntries⟩, .ok ⟨files.length, newEntries.length⟩)

/-- Modelled from the spec: query failure conditions; the empty-corpus
condition is distinct from the validation error. -/
inductive QueryError
  | validationError
  | emptyCorpus

/-- Modelled from the spec: a SourceAttribution copies the retrieval-time
data: document name, page, truncated snippet and similarity score. -/
structure SourceAttribution where
  source : String
  page : Nat
  snippet : List Char
  score : ℝ

/-- Modelled from the spec: a query answer with its ranked attributions. -/
structure QueryResult where
  answer : String
  sources : List SourceAttribution

/-- Modelled from the spec: a question is rejected when empty or
whitespace-only. -/
def isBlank (q : String) : Bool := q.data.all (fun c => c.isWhitespace)

/-- Modelled from the spec: prompt assembly, a fixed instruction followed by
the retrieved passages labeled with document name and page, then the
question. -/
def promptFor (results : List (IndexEntry × ℝ)) (q : String) : String :=
  (results.foldl
    (fun acc r =>
      acc ++ "\n" ++ r.1.filename ++ " page " ++ toString r.1.chunk.page
        ++ ": " ++ String.mk r.1.chunk.text)
    "Answer only from the provided context; cite the document and page.")
    ++ "\nQuestion: " ++ q

/-- Modelled from the spec: `answer(question, k)`; returns the (unchanged)
index state, the outcome, and the number of embedding calls made. Steps:
reject a blank question; fail with the empty-corpus condition on an empty
index; embed the question (one embedding call), search the top `k`,
assemble the prompt, invoke generation, and return the answer with ranked
source attributions, snippets truncated to `SNIPPET_LEN`. -/
noncomputable def answerSt (embed : String → List ℝ) (gen : String → String)
    (st : IndexState) (q : String) (k : Nat) :
    IndexState × Except QueryError QueryResult × Nat :=
  if isBlank q then (st, .error .validationError, 0)
  else if st.entries.isEmpty then (st, .error .emptyCorpus, 0)
  else
    let results := search st (embed q) k
    let sources := results.map
      (fun r => ⟨r.1.filename, r.1.chunk.page, r.1.chunk.text.take SNIPPET_LEN, r.2⟩)
    (st, .ok ⟨gen (promptFor results q), sources⟩, 1)

/-- C2: on an index with zero entries, `search` returns the empty sequence
(a normal outcome) while `answer` on a non-blank question fails with the
distinct empty-corpus condition, making no embedding call and leaving the
state unchanged. -/
theorem empty_index_contract (embed : String → List ℝ) (gen : String → String)
    (st : IndexState) (v : List ℝ) (k : Nat) (q : String)
    (hempty : st.entries = []) (hq : isBlank q = false) :
    search st v k = [] ∧
    answerSt embed gen st q k = (st, .error .emptyCorpus, 0) := by
  obtain ⟨entries⟩ := st
  dsimp only at hempty
  subst hempty
  constructor
  · simp [search, searchRanked]
  · simp [answerSt, hq]

/-- C2 witness: the empty-index contract at a concrete empty index and the
concrete question "hi". -/
theorem empty_index_contract_witness :
    search ⟨[]⟩ [] 2 = [] ∧
    answerSt (fun _ => []) (fun _ => "") ⟨[]⟩ "hi" 2 =
      (⟨[]⟩, .error .emptyCorpus, 0) :=
  empty_index_contract (fun _ => []) (fun _ => "") ⟨[]⟩ [] 2 "hi" rfl (by decide)

/-- C4: ingestion rejects with a validation error, leaving the index state
unchanged (so zero chunks are indexed), whenever more than 4 files are
given or any file fails the PDF name check. -/
theorem ingest_rejects_invalid (embed : List Char → List ℝ)
    (files : List FileMeta) (st : IndexState)
    (h : 4 < files.length ∨ ∃ f ∈ files, isPdfName f.name = false) :
    ingest embed files st = (st, .error .validationError) := by
  rcases h with h | ⟨f, hf, hpdf⟩
  · simp [ingest, h]
  · by_cases h4 : 4 < files.length
    · simp [ingest, h4]
    · have hany : files.any (fun f => !(isPdfName f.name)) = true := by
        rw [List.any_eq_true]
        exact ⟨f, hf, by simp [hpdf]⟩
      simp [ingest, h4, hany]

/-- C4 witness: uploading five PDF-named files is rejected with the index
left unchanged. -/
theorem ingest_rejects_invalid_witness :
    ingest (fun _ => [])
      [⟨"a.pdf", []⟩, ⟨"b.pdf", []⟩, ⟨"c.pdf", []⟩, ⟨"d.pdf", []⟩, ⟨"e.pdf", []⟩]
      ⟨[]⟩ = (⟨[]⟩, .error .validationError) :=
  ingest_rejects_invalid (fun _ => [])
    [⟨"a.pdf", []⟩, ⟨"b.pdf", []⟩, ⟨"c.pdf", []⟩, ⟨"d.pdf", []⟩, ⟨"e.pdf", []⟩]
    ⟨[]⟩ (Or.inl (by decide))

/-- C5: a blank (empty or whitespace-only) question is rejected with a
validation error; no embedding call is made and the index state is
unchanged. -/
theorem answer_rejects_blank_question (embed : String → List ℝ)
    (gen : String → String) (st : IndexState) (q : String) (k : Nat)
    (h : isBlank q = true) :
    answerSt embed gen st q k = (st, .error .validationError, 0) := by
  simp [answerSt, h]

/-- C5 witness: the whitespace-only question "  " is rejected with zero
embedding calls. -/
theorem answer_rejects_blank_question_witness :
    answerSt (fun _ => []) (fun _ => "") ⟨[]⟩ "  " 3 =
      (⟨[]⟩, .error .validationError, 0) :=
  answer_rejects_blank_question (fun _ => []) (fun _ => "") ⟨[]⟩ "  " 3
    (by decide)

/-! ## ConversationStore (modelled from the spec, section 4.5) -/

/-- Modelled from the spec: messages are tagged variants per role; only
assistant messages carry source attributions. -/
inductive StoredMessage
  | user (content : String) (timestamp : Nat)
  | assistant (content : String) (sources : List SourceAttribution) (timestamp : Nat)

/-- Modelled from the spec: a conversation owned by exactly one user, with
title, timestamps, ordered messages and a message count. -/
structure Conversation where
  id : Nat
  owner : Nat
  title : String
  createdAt : Nat
  updatedAt : Nat
  messages : List StoredMessage
  messageCount : Nat

/-- Modelled from the spec: store failures; authorization failures are
reported as not-found. -/
inductive StoreError
  | notFound

/-- Modelled from the spec: a fresh conversation with the default title. -/
def mkConversation (cid owner t0 : Nat) : Conversation :=
  ⟨cid, owner, "New Chat", t0, t0, [], 0⟩

/-- Modelled from the spec: `createConversation` adds a fresh conversation. -/
def createConversation (s : List Conversation) (owner cid t0 : Nat) :
    List Conversation :=
  s ++ [mkConversation cid owner t0]

/-- An append request: a user message, or an assistant message with its
source attributions. -/
inductive AppendOp
  | userMsg (content : String) (t : Nat)
  | assistantMsg (content : String) (sources : List SourceAttribution) (t : Nat)

/-- The stored message an append request creates. -/
def opMessage : AppendOp → StoredMessage
  | .userMsg c t => .user c t
  | .assistantMsg c s t => .assistant c s t

/-- The timestamp of an append request. -/
def opTime : AppendOp → Nat
  | .userMsg _ t => t
  | .assistantMsg _ _ t => t

/-- Modelled from the spec: an append strictly appends the new message,
recomputes the message count and updates `updatedAt`. -/
def applyAppend (c : Conversation) (op : AppendOp) : Conversation :=
  { c with messages := c.messages ++ [opMessage op],
           messageCount := (c.messages ++ [opMessage op]).length,
           updatedAt := opTime op }

/-- Modelled from the spec: `appendUserMessage` and `appendAssistantMessage`
applied to the store: the targeted conversation is updated in place. -/
def appendToStore (s : List Conversation) (cid : Nat) (op : AppendOp) :
    List Conversation :=
  s.map (fun c => if c.id = cid then applyAppend c op else c)

/-- A sequence of appends to one conversation, applied in call order. -/
def applyAppends (s : List Conversation) (cid : Nat) (ops : List AppendOp) :
    List Conversation :=
  ops.foldl (fun s op => appendToStore s cid op) s

/-- Modelled from the spec: fetch a conversation with its full message
sequence; access by a non-owner is reported as not-found. -/
def getConversation (s : List Conversation) (cid owner : Nat) :
    Except StoreError Conversation :=
  match s.find? (fun c => c.id == cid) with
  | none => .error .notFound
  | some c => if c.owner == owner then .ok c else .error .notFound

/-- Modelled from the spec: delete a conversation; absent or non-owned
conversations are reported as not-found. -/
def deleteConversation (s : List Conversation) (cid owner : Nat) :
    Except StoreError (List Conversation) :=
  if s.any (fun c => c.id == cid && c.owner == owner) then
    .ok (s.filter (fun c => !(c.id == cid && c.owner == owner)))
  else .error .notFound

lemma foldl_applyAppend_id (ops : List AppendOp) :
    ∀ c : Conversation, (ops.foldl applyAppend c).id = c.id ∧
      (ops.foldl applyAppend c).owner = c.owner := by
  induction ops with
  | nil => intro c; exact ⟨rfl, rfl⟩
  | cons op ops ih =>
    intro c
    rw [List.foldl_cons]
    exact ⟨(ih (applyAppend c op)).1, (ih (applyAppend c op)).2⟩

lemma foldl_applyAppend_messages (ops : List AppendOp) :
    ∀ c : Conversation,
      (ops.foldl applyAppend c).messages = c.messages ++ ops.map opMessage := by
  induction ops with
  | nil => intro c; simp
  | cons op ops ih =>
    intro c
    rw [List.foldl_cons, ih (applyAppend c op)]
    simp [applyAppend]

lemma foldl_applyAppend_count (ops : List AppendOp) :
    ∀ c : Conversation, c.messageCount = c.messages.length →
      (ops.foldl applyAppend c).messageCount =
        (ops.foldl applyAppend c).messages.length := by
  induction ops with
  | nil => intro c h; exact h
  | cons op ops ih =>
    intro c _
    rw [List.foldl_cons]
    exact ih (applyAppend c op) rfl

lemma applyAppends_singleton (cid : Nat) (ops : List AppendOp) :
    ∀ c : Conversation, c.id = cid →
      applyAppends [c] cid ops = [ops.foldl applyAppend c] := by
  induction ops with
  | nil => intro c _; rfl
  | cons op ops ih =>
    intro c hc
    have h1 : appendToStore [c] cid op = [applyAppend c op] := by
      simp [appendToStore, hc]
    rw [applyAppends, List.foldl_cons]
    show applyAppends (appendToStore [c] cid op) cid ops = _
    rw [h1, ih (applyAppend c op) hc, List.foldl_cons]

/-- C7: appends are strictly append-only: starting from a freshly created
conversation, after any sequence of user/assistant appends
`getConversation` returns exactly those messages in call order with the
message count equal to their number; moreover every single append keeps all
previous messages, sets `updatedAt` to the append time and recomputes the
message count. -/
theorem conversation_append_ordering (owner cid t0 : Nat) (ops : List AppendOp) :
    getConversation (applyAppends (createConversation [] owner cid t0) cid ops)
        cid owner
      = .ok (ops.foldl applyAppend (mkConversation cid owner t0)) ∧
    (ops.foldl applyAppend (mkConversation cid owner t0)).messages
      = ops.map opMessage ∧
    (ops.foldl applyAppend (mkConversation cid owner t0)).messageCount
      = ops.length ∧
    ∀ (c : Conversation) (op : AppendOp),
      (applyAppend c op).messages = c.messages ++ [opMessage op] ∧
      (applyAppend c op).updatedAt = opTime op ∧
      (applyAppend c op).messageCount = c.messages.length + 1 := by
  have hmsg := foldl_applyAppend_messages ops (mkConversation cid owner t0)
  have hid := foldl_applyAppend_id ops (mkConversation cid owner t0)
  have hcount := foldl_applyAppend_count ops (mkConversation cid owner t0) rfl
  have hstore : applyAppends (createConversation [] owner cid t0) cid ops
      = [ops.foldl applyAppend (mkConversation cid owner t0)] := by
    have : createConversation [] owner cid t0 = [mkConversation cid owner t0] := rfl
    rw [this]
    exact applyAppends_singleton cid ops (mkConversation cid owner t0) rfl
  refine ⟨?_, ?_, ?_, ?_⟩
  · rw [hstore, getConversation]
    have h1 : ((ops.foldl applyAppend (mkConversation cid owner t0)).id == cid)
        = true := by
      rw [hid.1]; simp [mkConversation]
    have h2 : ((ops.foldl applyAppend (mkConversation cid owner t0)).owner == owner)
        = true := by
      rw [hid.2]; simp [mkConversation]
    simp [List.find?, h1, h2]
  · rw [hmsg]
    simp [mkConversation]
  · rw [hcount, hmsg]
    simp [mkConversation]
  · intro c op
    exact ⟨rfl, rfl, by simp [applyAppend]⟩

/-- C7 witness: the append-ordering contract applied at a concrete
conversation and a concrete two-element call sequence. -/
theorem conversation_append_ordering_witness :
    ([AppendOp.userMsg "q" 1, AppendOp.assistantMsg "a" [] 2].foldl applyAppend
        (mkConversation 1 2 0)).messages
      = [AppendOp.userMsg "q" 1, AppendOp.assistantMsg "a" [] 2].map opMessage :=
  (conversation_append_ordering 2 1 0
    [AppendOp.userMsg "q" 1, AppendOp.assistantMsg "a" [] 2]).2.1

/-- C8: for a user who owns no conversation with the given id, both
`getConversation` and `deleteConversation` fail with not-found, so
authorization failures are indistinguishable from absence. -/
theorem ownership_isolation (s : List Conversation) (cid a : Nat)
    (h : ∀ c ∈ s, c.id = cid → c.owner ≠ a) :
    getConversation s cid a = .error .notFound ∧
    deleteConversation s cid a = .error .notFound := by
  constructor
  · rw [getConversation]
    cases hf : s.find? (fun c => c.id == cid) with
    | none => rfl
    | some c =>
      have hc := List.mem_of_find?_eq_some hf
      have hcid : c.id = cid := by simpa using List.find?_some hf
      have hown := h c hc hcid
      simp [hown]
  · rw [deleteConversation]
    have hany : (s.any fun c => c.id == cid && c.owner == a) = false := by
      rw [List.any_eq_false]
      intro c hc
      simp only [Bool.and_eq_true, beq_iff_eq, not_and]
      intro hcid
      exact h c hc hcid
    simp [hany]

/-- C8 witness: user 3 cannot fetch or delete the conversation owned by
user 2. -/
theorem ownership_isolation_witness :
    getConversation [⟨1, 2, "New Chat", 0, 0, [], 0⟩] 1 3 = .error .notFound ∧
    deleteConversation [⟨1, 2, "New Chat", 0, 0, [], 0⟩] 1 3 = .error .notFound :=
  ownership_isolation [⟨1, 2, "New Chat", 0, 0, [], 0⟩] 1 3
    (by
      intro c hc hcid
      rw [List.mem_singleton] at hc
      subst hc
      decide)

/-! ## Frontend chat component (`frontend/app/components/Chatbot.tsx`) -/

/-- A message in the chat component state: role and content, assistant
messages carrying their sources (the `Message` type of `Chatbot.tsx`). -/
inductive UiMessage
  | user (content : String)
  | assistant (content : String) (sources : List SourceAttribution)

/-- The reply payload a successful query yields: assistant content and
sources from the server response. -/
structure QueryReply where
  content : String
  sources : List SourceAttribution

/-- Embedded from `handleQuery` in `Chatbot.tsx`: the user message is
appended optimistically; on success the assistant message is appended (and,
when logged in, the list is then replaced by the server state reloaded by
`loadChat`); on any failure (non-OK response or thrown error) the last
message is removed by slicing off the final element. -/
def handleQueryMessages (loggedIn : Bool) (serverMsgs : List UiMessage)
    (msgs : List UiMessage) (q : String)
    (outcome : Except String QueryReply) : List UiMessage :=
  let m1 := msgs ++ [UiMessage.user q]
  match outcome with
  | .error _ => m1.dropLast
  | .ok r =>
    let m2 := m1 ++ [UiMessage.assistant r.content r.sources]
    if loggedIn then serverMsgs else m2

/-- C9: a failed query leaves the displayed message list exactly as it was
before the query began: the optimistic user message is the only appended
message and the failure path removes exactly it. -/
theorem handleQuery_failure_atomic (loggedIn : Bool)
    (serverMsgs msgs : List UiMessage) (q : String) (e : String) :
    handleQueryMessages loggedIn serverMsgs msgs q (.error e) = msgs := by
  simp [handleQueryMessages]

/-! ## Auth context (`AuthContext` component) -/

/-- The authenticated user object (the `User` type of the auth context). -/
structure UserInfo where
  id : String
  email : String
  username : String

/-- The auth provider state: the current user and token, both nullable. -/
structure AuthState where
  user : Option UserInfo
  token : Option String

/-- Embedded from the auth context value: authenticated means both the
token and the user object are present. -/
def isAuthenticated (s : AuthState) : Bool := s.token.isSome && s.user.isSome

/-- Embedded from `logout`: clears both the token and the user. -/
def logout (_s : AuthState) : AuthState := ⟨none, none⟩

/-- Embedded from `fetchUserInfo`: on an OK response the user object is set;
on a failed response or a thrown error the stored token is cleared. -/
def fetchUserInfo (s : AuthState) (resp : Except String UserInfo) : AuthState :=
  match resp with
  | .ok u => { s with user := some u }
  | .error _ => { s with token := none }

/-- Embedded from `login`: stores the token, then fetches the user info. -/
def login (s : AuthState) (tok : String) (resp : Except String UserInfo) :
    AuthState :=
  fetchUserInfo { s with token := some tok } resp

/-- Embedded from the mount effect: a stored token is loaded and validated
via `fetchUserInfo`; with no stored token the state is unchanged. -/
def initialLoad (s : AuthState) (stored : Option String)
    (resp : Except String UserInfo) : AuthState :=
  match stored with
  | none => s
  | some tok => fetchUserInfo { s with token := some tok } resp

/-- C10: `isAuthenticated` is true exactly when both the token and the user
are non-null, in every state; `logout` clears both and deauthenticates; an
invalid stored token (failed `fetchUserInfo`) clears the token and
deauthenticates. Hence no reachable state has `isAuthenticated` true with a
null token or user. -/
theorem auth_invariant (s : AuthState) :
    (isAuthenticated s = true ↔ s.token ≠ none ∧ s.user ≠ none) ∧
    (logout s).token = none ∧ (logout s).user = none ∧
    isAuthenticated (logout s) = false ∧
    (∀ e : String, (fetchUserInfo s (.error e)).token = none) ∧
    (∀ e : String, isAuthenticated (fetchUserInfo s (.error e)) = false) := by
  refine ⟨?_, rfl, rfl, rfl, fun e => rfl, fun e => ?_⟩
  · simp [isAuthenticated, Bool.and_eq_true, Option.isSome_iff_ne_none]
  · simp [isAuthenticated, fetchUserInfo]

/-- C10 witness: the auth invariant evaluated at a concrete state. -/
theorem auth_invariant_witness :
    isAuthenticated (logout ⟨none, none⟩) = false :=
  (auth_invariant ⟨none, none⟩).2.2.2.1

end KSRag
